import Mathlib

/-!
Verification of the message-splitting and conversation-history management
logic of a chat-relay bot (source: `src/bot.py`).

The shallow embedding below models:
* `get_deepseek_response` (bot.py lines 38-113): interpretation of the
  completion API's decoded outcome into a `(display, history-or-error)` pair;
* the per-channel bounded history (`collections.deque` with
  `maxlen=MAX_HISTORY`) manipulated by `on_message` (bot.py lines 431-461);
* the chunk-splitting loop of `on_message` (bot.py lines 470-504).

Strings are Python `str` values; where index arithmetic matters the
embedding works over `List Char` (one element per code point, matching
Python's `len`/slicing semantics).
-/

/-- Python `str.isspace` restricted to the ASCII whitespace characters that
can actually occur here (`' '`, `'\t'`, `'\n'`, `'\r'`, `'\x0b'`, `'\x0c'`). -/
def pyIsSpace (c : Char) : Bool :=
  c = ' ' || c = '\t' || c = '\n' || c = '\r' || c = '\x0b' || c = '\x0c'

/-- Python `str.strip()` on a list of characters: drop whitespace from both ends. -/
def pyStrip (s : List Char) : List Char :=
  ((s.dropWhile pyIsSpace).reverse.dropWhile pyIsSpace).reverse

/-- Python `str.strip()` on a `String`. -/
def pyStripS (s : String) : String :=
  String.mk (pyStrip s.data)

/-- Python truthiness of an optional string (`None` and `""` are falsy). -/
def optTruthy : Option String → Bool
  | none => false
  | some s => !s.isEmpty

/-- The backtick character (written via its code point to keep the source plain). -/
def btChar : Char := '\x60'

/-- The newline character searched for by the splitter. -/
def nlChar : Char := '\n'

/-- The space character searched for by the splitter. -/
def spChar : Char := ' '

/-- Helper for `pyRfind`: scan indices `start + fuel - 1`, ..., `start`
from the top, returning the first (i.e. highest) index holding `c`. -/
def rfindAux (s : List Char) (c : Char) (start : Nat) : Nat → Option Nat
  | 0 => none
  | k + 1 =>
    if h : start + k < s.length then
      if s.get ⟨start + k, h⟩ = c then some (start + k)
      else rfindAux s c start k
    else rfindAux s c start k

/-- Python `s.rfind(c, start, stop)`: the highest index `i` with
`start ≤ i < stop`, `i < s.length` and `s[i] = c` (`none` for Python's `-1`). -/
def pyRfind (s : List Char) (c : Char) (start stop : Nat) : Option Nat :=
  rfindAux s c start (stop - start)

/-- Python `s.count("\x60\x60\x60")`: number of non-overlapping occurrences of
the triple-backtick fence marker, scanning left to right. -/
def countFences : List Char → Nat
  | a :: b :: c :: rest =>
    if a = btChar ∧ b = btChar ∧ c = btChar then countFences rest + 1
    else countFences (b :: c :: rest)
  | _ => 0

/-- The triple-backtick fence marker. -/
def fenceMarker : List Char := [btChar, btChar, btChar]

/-- Python `"\x60\x60\x60" in chunk`: substring containment of the fence marker. -/
def containsFence (s : List Char) : Bool :=
  decide (List.IsInfix fenceMarker s)

/-- Python slicing `s[a:b]` (for `a`, `b` in `[0, len]`). -/
def pySlice (s : List Char) (a b : Nat) : List Char :=
  (s.take b).drop a

/-- bot.py lines 479-483: the space-or-hard-cut fallback of the splitter.
If the last space in `[pos, cutOff)` lies strictly after `pos`, split there,
otherwise hard-cut at `cutOff`. -/
def spaceSplit (s : List Char) (pos cutOff : Nat) : Nat :=
  match pyRfind s spChar pos cutOff with
  | some j => if pos < j then j else cutOff
  | none => cutOff

/-- bot.py lines 474-483: newline-preferring split within `[pos, cutOff)`:
take the last newline when it is strictly after `pos`, else `spaceSplit`. -/
def newlineSplit (s : List Char) (pos cutOff : Nat) : Nat :=
  match pyRfind s nlChar pos cutOff with
  | some i => if pos < i then i else spaceSplit s pos cutOff
  | none => spaceSplit s pos cutOff

/-- Candidate split point before the fence guard: `newlineSplit` inside the
window `[pos, min (pos + 1990) s.length)`. -/
def computeBaseSplit (s : List Char) (pos : Nat) : Nat :=
  newlineSplit s pos (min (pos + 1990) s.length)

/-- bot.py lines 487-489: retreat to the last newline found in `[pos, b-1)`
when that newline is strictly after `pos`; otherwise keep `b`. -/
def fenceFallback (s : List Char) (pos b : Nat) : Nat :=
  match pyRfind s nlChar pos (b - 1) with
  | some k => if pos < k then k else b
  | none => b

/-- bot.py lines 484-489: the code-fence guard. If the candidate chunk
`s[pos:b]` contains the fence marker and its fence count is odd, apply
`fenceFallback`; otherwise keep `b`. -/
def fenceGuard (s : List Char) (pos b : Nat) : Nat :=
  if containsFence (pySlice s pos b) ∧ countFences (pySlice s pos b) % 2 ≠ 0 then
    fenceFallback s pos b
  else b

/-- The split point chosen by one iteration of the splitter loop. -/
def computeSplitIndex (s : List Char) (pos : Nat) : Nat :=
  fenceGuard s pos (computeBaseSplit s pos)

/-- bot.py lines 495-496: advance past consecutive whitespace characters. -/
def skipWs (s : List Char) (p : Nat) : Nat :=
  if h : p < s.length then
    if pyIsSpace (s.get ⟨p, h⟩) then skipWs s (p + 1) else p
  else p
termination_by s.length - p

theorem skipWs_le (s : List Char) (p : Nat) : p ≤ skipWs s p := by
  rw [skipWs]
  split
  · split
    · have := skipWs_le s (p + 1)
      omega
    · exact Nat.le_refl p
  · exact Nat.le_refl p
termination_by s.length - p

theorem pyRfind_some_bounds (s : List Char) (c : Char) (start stop i : Nat)
    (h : pyRfind s c start stop = some i) :
    start ≤ i ∧ i < stop ∧ i < s.length := by
  have key : ∀ fuel j, rfindAux s c start fuel = some j →
      start ≤ j ∧ j < start + fuel ∧ j < s.length := by
    intro fuel
    induction fuel with
    | zero => intro j hj; simp [rfindAux] at hj
    | succ k ih =>
      intro j hj
      rw [rfindAux] at hj
      split at hj
      · split at hj
        · cases hj; omega
        · have := ih j hj; omega
      · have := ih j hj; omega
  have h2 := key (stop - start) i h
  omega

theorem spaceSplit_gt (s : List Char) (pos cutOff : Nat) (h : pos < cutOff) :
    pos < spaceSplit s pos cutOff := by
  unfold spaceSplit
  split
  · split <;> omega
  · exact h

theorem spaceSplit_le (s : List Char) (pos cutOff : Nat) :
    spaceSplit s pos cutOff ≤ cutOff := by
  unfold spaceSplit
  split
  · next j hj =>
    have hb := pyRfind_some_bounds s spChar pos _ j hj
    split <;> omega
  · exact Nat.le_refl cutOff

theorem computeBaseSplit_gt (s : List Char) (pos : Nat) (h : pos < s.length) :
    pos < computeBaseSplit s pos := by
  have hcut : pos < min (pos + 1990) s.length := by omega
  unfold computeBaseSplit newlineSplit
  split
  · split
    · assumption
    · exact spaceSplit_gt s pos _ hcut
  · exact spaceSplit_gt s pos _ hcut

theorem computeBaseSplit_le (s : List Char) (pos : Nat) :
    computeBaseSplit s pos ≤ min (pos + 1990) s.length := by
  unfold computeBaseSplit newlineSplit
  split
  · next i hi =>
    have hb := pyRfind_some_bounds s nlChar pos _ i hi
    split
    · omega
    · exact spaceSplit_le s pos _
  · exact spaceSplit_le s pos _

theorem fenceFallback_le (s : List Char) (pos b : Nat) : fenceFallback s pos b ≤ b := by
  unfold fenceFallback
  split
  · next k hk =>
    have hb := pyRfind_some_bounds s nlChar pos _ k hk
    split <;> omega
  · exact Nat.le_refl b

theorem fenceGuard_le (s : List Char) (pos b : Nat) : fenceGuard s pos b ≤ b := by
  unfold fenceGuard
  split
  · exact fenceFallback_le s pos b
  · exact Nat.le_refl b

theorem fenceFallback_gt (s : List Char) (pos b : Nat) (h : pos < b) :
    pos < fenceFallback s pos b := by
  unfold fenceFallback
  split
  · split <;> omega
  · exact h

theorem computeSplitIndex_gt (s : List Char) (pos : Nat) (h : pos < s.length) :
    pos < computeSplitIndex s pos := by
  have hbase := computeBaseSplit_gt s pos h
  unfold computeSplitIndex fenceGuard
  split
  · exact fenceFallback_gt s pos _ hbase
  · exact hbase

theorem computeSplitIndex_le (s : List Char) (pos : Nat) :
    computeSplitIndex s pos ≤ min (pos + 1990) s.length := by
  have h1 := fenceGuard_le s pos (computeBaseSplit s pos)
  have h2 := computeBaseSplit_le s pos
  unfold computeSplitIndex
  omega

/-- bot.py lines 470-496: the splitting loop, emitting raw (untrimmed) chunks. -/
def splitLoop (s : List Char) (pos : Nat) : List (List Char) :=
  if h : pos < s.length then
    pySlice s pos (computeSplitIndex s pos) ::
      splitLoop s (skipWs s (computeSplitIndex s pos))
  else []
termination_by s.length - pos
decreasing_by
  have h1 := computeSplitIndex_gt s pos h
  have h2 := skipWs_le s (computeSplitIndex s pos)
  omega

/-- The `(cursor, splitPoint)` pairs produced by the splitting loop. -/
def splitSteps (s : List Char) (pos : Nat) : List (Nat × Nat) :=
  if h : pos < s.length then
    (pos, computeSplitIndex s pos) ::
      splitSteps s (skipWs s (computeSplitIndex s pos))
  else []
termination_by s.length - pos
decreasing_by
  have h1 := computeSplitIndex_gt s pos h
  have h2 := skipWs_le s (computeSplitIndex s pos)
  omega

/-- The full splitter applied from position 0. -/
def splitMessage (s : List Char) : List (List Char) :=
  splitLoop s 0

/-- bot.py lines 498-504: the parts actually sent — each raw chunk is
stripped and empty chunks are skipped. -/
def sentParts (s : List Char) : List (List Char) :=
  (splitMessage s).filterMap (fun p => if pyStrip p = [] then none else some (pyStrip p))

theorem splitLoop_of_lt (s : List Char) (pos : Nat) (h : pos < s.length) :
    splitLoop s pos = pySlice s pos (computeSplitIndex s pos) ::
      splitLoop s (skipWs s (computeSplitIndex s pos)) := by
  rw [splitLoop]
  simp [h]

theorem splitLoop_of_ge (s : List Char) (pos : Nat) (h : s.length ≤ pos) :
    splitLoop s pos = [] := by
  rw [splitLoop]
  simp [Nat.not_lt.mpr h]

theorem splitSteps_of_lt (s : List Char) (pos : Nat) (h : pos < s.length) :
    splitSteps s pos = (pos, computeSplitIndex s pos) ::
      splitSteps s (skipWs s (computeSplitIndex s pos)) := by
  rw [splitSteps]
  simp [h]

theorem splitSteps_of_ge (s : List Char) (pos : Nat) (h : s.length ≤ pos) :
    splitSteps s pos = [] := by
  rw [splitSteps]
  simp [Nat.not_lt.mpr h]

theorem skipWs_of_ge (s : List Char) (p : Nat) (h : s.length ≤ p) :
    skipWs s p = p := by
  rw [skipWs]
  simp [Nat.not_lt.mpr h]

theorem skipWs_of_nonspace (s : List Char) (p : Nat) (h : p < s.length)
    (hc : pyIsSpace (s.get ⟨p, h⟩) = false) :
    skipWs s p = p := by
  rw [skipWs]
  simp only [List.get_eq_getElem] at hc
  simp [h, hc]

theorem skipWs_of_space (s : List Char) (p : Nat) (h : p < s.length)
    (hc : pyIsSpace (s.get ⟨p, h⟩) = true) :
    skipWs s p = skipWs s (p + 1) := by
  rw [skipWs]
  simp only [List.get_eq_getElem] at hc
  simp [h, hc]

theorem rfindAux_eq_some_of (s : List Char) (c : Char) (start fuel i : Nat)
    (h1 : start ≤ i) (h2 : i < start + fuel) (hi : i < s.length)
    (hget : s.get ⟨i, hi⟩ = c)
    (hmax : ∀ j (hj : j < s.length), i < j → j < start + fuel → s.get ⟨j, hj⟩ ≠ c) :
    rfindAux s c start fuel = some i := by
  induction fuel with
  | zero => omega
  | succ k ih =>
    rw [rfindAux]
    by_cases hik : i = start + k
    · subst hik
      simp only [List.get_eq_getElem] at hget
      simp [hi, hget]
    · have hlt : i < start + k := by omega
      split
      · next hsk =>
        have hne : s.get ⟨start + k, hsk⟩ ≠ c := hmax (start + k) hsk (by omega) (by omega)
        rw [if_neg hne]
        exact ih hlt (fun j hj hji hjk => hmax j hj hji (by omega))
      · exact ih hlt (fun j hj hji hjk => hmax j hj hji (by omega))

theorem rfindAux_eq_none_of (s : List Char) (c : Char) (start fuel : Nat)
    (hall : ∀ j (hj : j < s.length), start ≤ j → j < start + fuel → s.get ⟨j, hj⟩ ≠ c) :
    rfindAux s c start fuel = none := by
  induction fuel with
  | zero => rw [rfindAux]
  | succ k ih =>
    rw [rfindAux]
    split
    · next hsk =>
      have hne : s.get ⟨start + k, hsk⟩ ≠ c := hall (start + k) hsk (by omega) (by omega)
      rw [if_neg hne]
      exact ih (fun j hj hj1 hj2 => hall j hj hj1 (by omega))
    · exact ih (fun j hj hj1 hj2 => hall j hj hj1 (by omega))

theorem pyRfind_eq_some_of (s : List Char) (c : Char) (start stop i : Nat)
    (h1 : start ≤ i) (h2 : i < stop) (hi : i < s.length)
    (hget : s.get ⟨i, hi⟩ = c)
    (hmax : ∀ j (hj : j < s.length), i < j → j < stop → s.get ⟨j, hj⟩ ≠ c) :
    pyRfind s c start stop = some i := by
  unfold pyRfind
  exact rfindAux_eq_some_of s c start (stop - start) i h1 (by omega) hi hget
    (fun j hj hji hjk => hmax j hj hji (by omega))

theorem pyRfind_eq_none_of (s : List Char) (c : Char) (start stop : Nat)
    (hall : ∀ j (hj : j < s.length), start ≤ j → j < stop → s.get ⟨j, hj⟩ ≠ c) :
    pyRfind s c start stop = none := by
  unfold pyRfind
  exact rfindAux_eq_none_of s c start (stop - start)
    (fun j hj hj1 hj2 => hall j hj hj1 (by omega))

/-- The decoded outcome of one call to the completion API, as classified by
`get_deepseek_response` (bot.py lines 52-113): JSON decode failure (line 60),
non-200 status with an optional `error.message` payload (lines 94-102),
200 with missing/empty `choices` (lines 91-93), 200 with the message's
optional `reasoning_content`/`content` fields (lines 66-90), and the three
caught exception classes (lines 104-113). -/
inductive ApiResponse where
  | decodeError (status : Nat)
  | httpError (status : Nat) (payloadMsg : Option String)
  | missingChoices (raw : String)
  | success (reasoning finalContent : Option String)
  | connError (e : String)
  | timeoutError
  | unexpectedError (e : String)

/-- bot.py lines 95-100: the extracted error message for a non-200 status:
the payload's `error.message` if present, else a generic placeholder naming
the status; a hint appended for status 400. -/
def httpErrorDetail (status : Nat) (payloadMsg : Option String) : String :=
  (match payloadMsg with
   | some m => m
   | none => "未知错误 (状态码 " ++ toString status ++ ")") ++
  (if status = 400 then "\n(提示: 错误 400 通常因为请求格式错误)" else "")

/-- bot.py lines 76-77: the labelled, fenced reasoning block (empty when
`reasoning_content` is falsy). -/
def reasoningBlock (r : Option String) : String :=
  if optTruthy r then
    "🤔 **思考过程:**\n\x60\x60\x60\n" ++ pyStripS (r.getD "") ++ "\n\x60\x60\x60\n\n"
  else ""

/-- bot.py lines 78-79: the labelled final-answer block (empty when
`content` is falsy). -/
def answerBlock (c : Option String) : String :=
  if optTruthy c then "💬 **最终回答:**\n" ++ pyStripS (c.getD "") else ""

/-- bot.py lines 75-82: the full user-facing text; when only reasoning is
present the labelled blocks are replaced by the bare stripped reasoning. -/
def fullForDiscord (r c : Option String) : String :=
  if !optTruthy c && optTruthy r then pyStripS (r.getD "")
  else reasoningBlock r ++ answerBlock c

/-- bot.py lines 84-90: result of a 200 response with a message object:
failure if neither field contributed text, otherwise
`(stripped display, stripped final answer or none)`. -/
def successResult (r c : Option String) : Option String × Option String :=
  if (fullForDiscord r c).isEmpty then
    (none, some "抱歉，DeepSeek API 返回的数据似乎不完整。")
  else
    (some (pyStripS (fullForDiscord r c)),
     if optTruthy c then some (pyStripS (c.getD "")) else none)

/-- bot.py lines 52-113, `get_deepseek_response`: maps the decoded call
outcome to the returned pair `(response_for_discord, response_for_history)`;
the first component is `None` exactly on failure, in which case the second
carries the human-readable diagnostic. -/
def get_deepseek_response : ApiResponse → Option String × Option String
  | .decodeError status =>
      (none, some ("抱歉，无法解析 DeepSeek API 的响应 (状态码 " ++ toString status ++ ")。"))
  | .httpError status payloadMsg =>
      (none, some ("抱歉，调用 DeepSeek API 时出错 (状态码 " ++ toString status ++ "): " ++
        httpErrorDetail status payloadMsg))
  | .missingChoices raw =>
      (none, some ("抱歉，DeepSeek API 返回了意外的结构：" ++ raw))
  | .success r c => successResult r c
  | .connError e => (none, some ("抱歉，无法连接到 DeepSeek API：" ++ e))
  | .timeoutError => (none, some "抱歉，连接 DeepSeek API 超时。")
  | .unexpectedError e => (none, some ("抱歉，处理 DeepSeek 请求时发生未知错误: " ++ e))

/-- One entry of a conversation log: a role-tagged message
(`{"role": ..., "content": ...}` in bot.py lines 456-457). -/
structure Turn where
  role : String
  content : String
deriving DecidableEq, Repr

/-- The process-wide `conversation_history` dictionary (bot.py line 126),
modelled as an association list keyed by channel id. -/
abbrev Store : Type := List (Nat × List Turn)

/-- Dictionary lookup `conversation_history.get(channel_id)`. -/
def storeLookup (st : Store) (k : Nat) : Option (List Turn) :=
  match st with
  | [] => none
  | (k2, v) :: rest => if k2 = k then some v else storeLookup rest k

/-- Dictionary write `conversation_history[channel_id] = v`. -/
def storeSet (st : Store) (k : Nat) (v : List Turn) : Store :=
  match st with
  | [] => [(k, v)]
  | (k2, v2) :: rest => if k2 = k then (k, v) :: rest else (k2, v2) :: storeSet rest k v

/-- `deque(maxlen = m).append(t)`: append at the tail, evicting from the
head so that at most `m` entries remain. -/
def dequeAppend (m : Nat) (xs : List Turn) (t : Turn) : List Turn :=
  (xs ++ [t]).drop (xs.length + 1 - m)

/-- bot.py lines 431-433: create the empty bounded log on first contact. -/
def ensureStore (st : Store) (k : Nat) : Store :=
  match storeLookup st k with
  | none => storeSet st k []
  | some _ => st

/-- bot.py lines 456-457: the two appends of one successful round trip. -/
def appendRound (m : Nat) (hist : List Turn) (userPrompt answerText : String) : List Turn :=
  dequeAppend m (dequeAppend m hist ⟨"user", userPrompt⟩) ⟨"assistant", answerText⟩

/-- Python `user_prompt.startswith('/')`. -/
def startsWithSlash (s : String) : Bool :=
  match s.data with
  | c :: _ => c = '/'
  | [] => false

/-- The inbound Discord message fields that `on_message` consults:
whether the author is a bot (line 417), whether the channel is a
`deepseek-`-prefixed private text channel (line 420), the channel id, and
the raw text content. -/
structure InboundMessage where
  authorIsBot : Bool
  inPrivateChannel : Bool
  channelId : Nat
  content : String

/-- bot.py line 507: the single error reply sent on a failed call. -/
def errorReplyText (m : String) : String :=
  "抱歉，处理你的请求时发生错误：\n" ++ m

/-- bot.py line 510: the reply for the (unreachable) double-`None` case. -/
def unknownReplyText : String :=
  "抱歉，与 DeepSeek API 通信时发生未知问题。"

/-- bot.py lines 464-504: the messages sent for a successful display text
`d`: `d` itself if within Discord's limit, else the stripped non-empty
chunks produced by the splitter. -/
def successOutputs (d : String) : List String :=
  if d.length ≤ 2000 then [d]
  else (sentParts d.data).map (fun l => String.mk l)

/-- bot.py lines 451-510: handling of the completion result `res`
against the store `st1` (in which the channel's log already exists):
on success persist the round trip only when a final answer is present and
send the (possibly split) display text; on failure send exactly one
diagnostic message and leave the store untouched. -/
def onMessageCore (m : Nat) (st1 : Store) (cid : Nat) (userPrompt : String)
    (res : Option String × Option String) : Store × List String :=
  if optTruthy res.1 then
    (if optTruthy res.2 then
       storeSet st1 cid (appendRound m ((storeLookup st1 cid).getD []) userPrompt (res.2.getD ""))
     else st1,
     successOutputs (res.1.getD ""))
  else if optTruthy res.2 then (st1, [errorReplyText (res.2.getD "")])
  else (st1, [unknownReplyText])

/-- bot.py lines 414-510, `on_message`: ignore bot authors, non-private
channels, and empty or `/`-prefixed prompts; otherwise initialise the
channel's bounded log if needed, call the API and dispatch on the result. -/
def onMessage (m : Nat) (st : Store) (msg : InboundMessage) (api : ApiResponse) :
    Store × List String :=
  if msg.authorIsBot then (st, [])
  else if !msg.inPrivateChannel then (st, [])
  else if (pyStripS msg.content).isEmpty || startsWithSlash (pyStripS msg.content) then (st, [])
  else onMessageCore m (ensureStore st msg.channelId) msg.channelId (pyStripS msg.content)
    (get_deepseek_response api)

theorem dropWhile_head?_not (p : Char → Bool) (l : List Char) (a : Char)
    (h : (l.dropWhile p).head? = some a) : p a = false := by
  induction l with
  | nil => simp [List.dropWhile] at h
  | cons x xs ih =>
    rw [List.dropWhile_cons] at h
    split at h
    · exact ih h
    · next hx =>
      simp only [List.head?_cons, Option.some.injEq] at h
      subst h
      simpa using hx

theorem pyStrip_eq_nil_iff (l : List Char) :
    pyStrip l = [] ↔ ∀ x ∈ l, pyIsSpace x = true := by
  unfold pyStrip
  rw [List.reverse_eq_nil_iff, List.dropWhile_eq_nil_iff]
  constructor
  · intro h x hx
    have hx2 : x ∈ List.takeWhile pyIsSpace l ++ List.dropWhile pyIsSpace l := by
      rw [List.takeWhile_append_dropWhile]
      exact hx
    rcases List.mem_append.mp hx2 with h1 | h2
    · exact List.mem_takeWhile_imp h1
    · exact h x (List.mem_reverse.mpr h2)
  · intro h x hx
    exact h x (List.Sublist.mem (List.mem_reverse.mp hx) (List.dropWhile_sublist pyIsSpace))

theorem pyStrip_head?_not (l : List Char) (a : Char)
    (h : (pyStrip l).head? = some a) : pyIsSpace a = false := by
  unfold pyStrip at h
  rw [List.head?_reverse] at h
  have h2 : ((List.dropWhile pyIsSpace l).reverse).getLast? = some a := by
    conv_lhs =>
      rw [← List.takeWhile_append_dropWhile pyIsSpace (List.dropWhile pyIsSpace l).reverse]
    rw [List.getLast?_append, h]
    rfl
  rw [List.getLast?_reverse] at h2
  exact dropWhile_head?_not pyIsSpace l a h2

theorem pyStrip_getLast?_not (l : List Char) (a : Char)
    (h : (pyStrip l).getLast? = some a) : pyIsSpace a = false := by
  unfold pyStrip at h
  rw [List.getLast?_reverse] at h
  exact dropWhile_head?_not pyIsSpace (List.dropWhile pyIsSpace l).reverse a h

theorem pyStrip_idem (l : List Char) : pyStrip (pyStrip l) = pyStrip l := by
  cases hh : pyStrip l with
  | nil => rfl
  | cons a t =>
    have ha : pyIsSpace a = false := pyStrip_head?_not l a (by rw [hh]; rfl)
    cases hrev : (a :: t).reverse with
    | nil => simp at hrev
    | cons b r =>
      have hb : pyIsSpace b = false := by
        apply pyStrip_getLast?_not l b
        rw [hh, List.getLast?_eq_head?_reverse, hrev]
        rfl
      unfold pyStrip
      rw [List.dropWhile_cons, if_neg (by simp [ha]), hrev, List.dropWhile_cons,
        if_neg (by simp [hb]), ← hrev, List.reverse_reverse]

theorem pyStripS_idem (s : String) : pyStripS (pyStripS s) = pyStripS s := by
  unfold pyStripS
  rw [show (String.mk (pyStrip s.data)).data = pyStrip s.data from rfl, pyStrip_idem]

theorem pyStripS_ne_empty (s : String) (a : Char) (ha : a ∈ s.data)
    (hna : pyIsSpace a = false) : pyStripS s ≠ "" := by
  intro h
  have h2 : pyStrip s.data = [] := by
    have h3 := congrArg String.data h
    simpa [pyStripS] using h3
  have h4 := (pyStrip_eq_nil_iff s.data).mp h2 a ha
  rw [hna] at h4
  exact Bool.false_ne_true h4

theorem string_append_ne_empty_left (a x : String) (h : a.data ≠ []) : a ++ x ≠ "" := by
  intro he
  have h2 := congrArg String.data he
  rw [String.data_append] at h2
  simp only [List.append_eq_nil] at h2
  exact absurd h2.1 h

theorem string_data_ne_nil_append (a x : String) (h : a.data ≠ []) :
    (a ++ x).data ≠ [] := by
  rw [String.data_append]
  intro he
  exact h (List.append_eq_nil.mp he).1

theorem string_ne_empty_of_data_ne_nil (s : String) (h : s.data ≠ []) : s ≠ "" := by
  intro he
  exact h (by rw [he])

theorem bool_eq_false (b : Bool) (h : ¬b = true) : b = false := by
  cases b
  · rfl
  · exact absurd rfl h

theorem optTruthy_some_iff (m : String) : optTruthy (some m) = true ↔ m ≠ "" := by
  constructor
  · intro h he
    subst he
    exact absurd h (by decide)
  · intro h
    show (!m.isEmpty) = true
    cases hmE : m.isEmpty with
    | false => rfl
    | true => exact absurd ((String.isEmpty_iff m).mp hmE) h

theorem successResult_total (r c : Option String) :
    (∃ d, (successResult r c).1 = some d ∧ d ≠ "") ∨
    ((successResult r c).1 = none ∧ ∃ m, (successResult r c).2 = some m ∧ m ≠ "") := by
  unfold successResult
  split
  · next hfull =>
    right
    exact ⟨rfl, "抱歉，DeepSeek API 返回的数据似乎不完整。", rfl, by decide⟩
  · next hfull =>
    left
    refine ⟨pyStripS (fullForDiscord r c), rfl, ?_⟩
    by_cases hc : optTruthy c = true
    · have hform : fullForDiscord r c = reasoningBlock r ++ answerBlock c := by
        unfold fullForDiscord
        rw [if_neg (by simp [hc])]
      have hmem : '💬' ∈ (fullForDiscord r c).data := by
        rw [hform, String.data_append]
        apply List.mem_append_right
        unfold answerBlock
        rw [if_pos hc, String.data_append]
        apply List.mem_append_left
        decide
      exact pyStripS_ne_empty _ '💬' hmem (by decide)
    · have hcf : optTruthy c = false := bool_eq_false _ hc
      by_cases hr : optTruthy r = true
      · have hform : fullForDiscord r c = pyStripS (r.getD "") := by
          unfold fullForDiscord
          rw [if_pos (by simp [hcf, hr])]
        rw [hform, pyStripS_idem]
        intro he
        apply hfull
        rw [hform, he]
        rfl
      · exfalso
        apply hfull
        have hrf : optTruthy r = false := bool_eq_false _ hr
        unfold fullForDiscord reasoningBlock answerBlock
        rw [if_neg (by simp [hcf, hrf]), if_neg (by simp [hrf]), if_neg (by simp [hcf])]
        rfl

theorem gdr_result_total (api : ApiResponse) :
    (∃ d, (get_deepseek_response api).1 = some d ∧ d ≠ "") ∨
    ((get_deepseek_response api).1 = none ∧
     ∃ m, (get_deepseek_response api).2 = some m ∧ m ≠ "") := by
  cases api with
  | decodeError status =>
    right
    refine ⟨rfl, _, rfl, ?_⟩
    apply string_ne_empty_of_data_ne_nil
    apply string_data_ne_nil_append
    apply string_data_ne_nil_append
    decide
  | httpError status payloadMsg =>
    right
    refine ⟨rfl, _, rfl, ?_⟩
    apply string_ne_empty_of_data_ne_nil
    apply string_data_ne_nil_append
    apply string_data_ne_nil_append
    apply string_data_ne_nil_append
    decide
  | missingChoices raw =>
    right
    refine ⟨rfl, _, rfl, ?_⟩
    apply string_ne_empty_of_data_ne_nil
    apply string_data_ne_nil_append
    decide
  | success r c => exact successResult_total r c
  | connError e =>
    right
    refine ⟨rfl, _, rfl, ?_⟩
    apply string_ne_empty_of_data_ne_nil
    apply string_data_ne_nil_append
    decide
  | timeoutError =>
    right
    exact ⟨rfl, _, rfl, by decide⟩
  | unexpectedError e =>
    right
    refine ⟨rfl, _, rfl, ?_⟩
    apply string_ne_empty_of_data_ne_nil
    apply string_data_ne_nil_append
    decide

theorem storeLookup_set_same (st : Store) (k : Nat) (v : List Turn) :
    storeLookup (storeSet st k v) k = some v := by
  induction st with
  | nil => simp [storeSet, storeLookup]
  | cons kv rest ih =>
    obtain ⟨k2, v2⟩ := kv
    unfold storeSet
    by_cases hk : k2 = k
    · rw [if_pos hk]
      unfold storeLookup
      rw [if_pos rfl]
    · rw [if_neg hk]
      unfold storeLookup
      rw [if_neg hk]
      exact ih

theorem storeLookup_set_other (st : Store) (k v k2 : _) (h : k ≠ k2) :
    storeLookup (storeSet st k v) k2 = storeLookup st k2 := by
  induction st with
  | nil =>
    simp only [storeSet, storeLookup]
    rw [if_neg h]
  | cons kv rest ih =>
    obtain ⟨k3, v3⟩ := kv
    unfold storeSet
    by_cases hk : k3 = k
    · rw [if_pos hk]
      unfold storeLookup
      rw [if_neg h, if_neg (by rw [hk]; exact h)]
    · rw [if_neg hk]
      unfold storeLookup
      by_cases hk2 : k3 = k2
      · rw [if_pos hk2, if_pos hk2]
      · rw [if_neg hk2, if_neg hk2]
        exact ih

theorem ensureStore_of_some (st : Store) (k : Nat) (L : List Turn)
    (h : storeLookup st k = some L) : ensureStore st k = st := by
  unfold ensureStore
  rw [h]

theorem storeLookup_ensure_same (st : Store) (k : Nat) :
    storeLookup (ensureStore st k) k = some ((storeLookup st k).getD []) := by
  unfold ensureStore
  cases h : storeLookup st k with
  | none => rw [storeLookup_set_same]; rfl
  | some v => rw [h]; rfl

theorem storeLookup_ensure_other (st : Store) (k k2 : Nat) (h : k ≠ k2) :
    storeLookup (ensureStore st k) k2 = storeLookup st k2 := by
  unfold ensureStore
  cases hx : storeLookup st k with
  | none => exact storeLookup_set_other st k [] k2 h
  | some v => rfl

theorem dequeAppend_length (m : Nat) (xs : List Turn) (t : Turn) :
    (dequeAppend m xs t).length = min (xs.length + 1) m := by
  unfold dequeAppend
  rw [List.length_drop, List.length_append]
  simp
  omega

theorem dequeAppend_of_lt (m : Nat) (xs : List Turn) (t : Turn) (h : xs.length < m) :
    dequeAppend m xs t = xs ++ [t] := by
  unfold dequeAppend
  rw [show xs.length + 1 - m = 0 by omega]
  rfl

theorem dequeAppend_of_ge (m : Nat) (xs : List Turn) (t : Turn) (h0 : 0 < m)
    (h : m ≤ xs.length) :
    dequeAppend m xs t = xs.drop (xs.length + 1 - m) ++ [t] := by
  unfold dequeAppend
  rw [List.drop_append_of_le_length (by omega)]

theorem pySlice_length_le (s : List Char) (a b : Nat) (h : b ≤ a + 1990) :
    (pySlice s a b).length ≤ 1990 := by
  unfold pySlice
  rw [List.length_drop, List.length_take]
  omega

theorem splitLoop_chunk_le (s : List Char) (pos : Nat) :
    ∀ chunk ∈ splitLoop s pos, chunk.length ≤ 1990 := by
  intro chunk hmem
  by_cases h : pos < s.length
  · rw [splitLoop_of_lt s pos h] at hmem
    rcases List.mem_cons.mp hmem with h1 | h2
    · subst h1
      apply pySlice_length_le
      have := computeSplitIndex_le s pos
      omega
    · exact splitLoop_chunk_le s (skipWs s (computeSplitIndex s pos)) chunk h2
  · rw [splitLoop_of_ge s pos (by omega)] at hmem
    simp at hmem
termination_by s.length - pos
decreasing_by
  have h1 := computeSplitIndex_gt s pos h
  have h2 := skipWs_le s (computeSplitIndex s pos)
  omega

/-- Claim C3: for every input string handed to the chunking algorithm, every
emitted chunk has length at most LIMIT = 2000 (in fact at most the search
window LIMIT − 10 = 1990), and every split point chosen by one loop
iteration lies inside the window of 1990 characters from the cursor. -/
theorem C3_chunk_size_bound (s : List Char) :
    (∀ chunk ∈ splitMessage s, chunk.length ≤ 2000) ∧
    (∀ pos, computeSplitIndex s pos ≤ pos + 1990) := by
  constructor
  · intro chunk h
    have := splitLoop_chunk_le s 0 chunk h
    omega
  · intro pos
    have := computeSplitIndex_le s pos
    omega

theorem C3_chunk_size_bound_witness : (['a', 'b'] : List Char).length ≤ 2000 := by
  apply (C3_chunk_size_bound ['a', 'b']).1
  have h1 : computeSplitIndex ['a', 'b'] 0 = 2 := by decide
  rw [splitMessage, splitLoop_of_lt _ _ (by decide), h1,
    skipWs_of_ge _ _ (by decide), splitLoop_of_ge _ _ (by decide)]
  decide

/-- Claim C5: the chunking loop's cursor strictly increases on every
iteration (the split point chosen is strictly past the cursor, and the
whitespace skip never goes backwards), so the loop terminates for every
finite input string — `splitLoop` is a total function by this measure. -/
theorem C5_cursor_progress (s : List Char) (pos : Nat) (h : pos < s.length) :
    pos < computeSplitIndex s pos ∧
    computeSplitIndex s pos ≤ skipWs s (computeSplitIndex s pos) :=
  ⟨computeSplitIndex_gt s pos h, skipWs_le s (computeSplitIndex s pos)⟩

theorem C5_cursor_progress_witness :
    0 < computeSplitIndex ['x', 'y', 'z'] 0 ∧
    computeSplitIndex ['x', 'y', 'z'] 0 ≤
      skipWs ['x', 'y', 'z'] (computeSplitIndex ['x', 'y', 'z'] 0) :=
  C5_cursor_progress ['x', 'y', 'z'] 0 (by decide)

/-- Claim C7: no exception escapes the completion-API-calling component —
every decoded outcome of the external call (decode failure, non-success
status, missing choices, connection error, timeout, or any other exception)
is mapped by `get_deepseek_response` to a returned pair: either a success
with a non-empty display text, or a Failure whose first component is `none`
and whose second carries a non-empty diagnostic; in particular all the
exception-shaped outcomes produce a Failure rather than raising. -/
theorem C7_no_exception_escape :
    (∀ api : ApiResponse,
      (∃ d, (get_deepseek_response api).1 = some d ∧ d ≠ "") ∨
      ((get_deepseek_response api).1 = none ∧
       ∃ m, (get_deepseek_response api).2 = some m ∧ m ≠ "")) ∧
    (∀ e, (get_deepseek_response (.connError e)).1 = none) ∧
    ((get_deepseek_response .timeoutError).1 = none) ∧
    (∀ e, (get_deepseek_response (.unexpectedError e)).1 = none) ∧
    (∀ status, (get_deepseek_response (.decodeError status)).1 = none) ∧
    (∀ status pm, (get_deepseek_response (.httpError status pm)).1 = none) :=
  ⟨gdr_result_total, fun _ => rfl, rfl, fun _ => rfl, fun _ => rfl, fun _ _ => rfl⟩

/-- Claim C8: on HTTP 400 carrying the payload message "invalid request",
the Failure message contains the extracted payload text and the
400-specific hint; and for any status with no extractable payload message,
the generic placeholder naming the status code is used (with the hint
appended exactly when the status is 400). -/
theorem C8_http400_diagnostics :
    ((get_deepseek_response (.httpError 400 (some "invalid request"))).2 =
      some ("抱歉，调用 DeepSeek API 时出错 (状态码 400): " ++
        ("invalid request" ++ "\n(提示: 错误 400 通常因为请求格式错误)"))) ∧
    List.IsInfix "invalid request".data
      (("抱歉，调用 DeepSeek API 时出错 (状态码 400): " ++
        httpErrorDetail 400 (some "invalid request")).data) ∧
    List.IsInfix "\n(提示: 错误 400 通常因为请求格式错误)".data
      (("抱歉，调用 DeepSeek API 时出错 (状态码 400): " ++
        httpErrorDetail 400 (some "invalid request")).data) ∧
    (∀ status : Nat, get_deepseek_response (.httpError status none) =
      (none, some ("抱歉，调用 DeepSeek API 时出错 (状态码 " ++ toString status ++ "): " ++
        ("未知错误 (状态码 " ++ toString status ++ ")" ++
         (if status = 400 then "\n(提示: 错误 400 通常因为请求格式错误)" else ""))))) := by
  refine ⟨rfl, by decide, by decide, fun status => rfl⟩

/-- Claim C10 (implicit): an inbound message whose content is empty after
stripping, or whose stripped content starts with a slash, is ignored
entirely — no reply is sent and the conversation-history store is returned
unchanged (no log is created or mutated). -/
theorem C10_ignored_inputs (m : Nat) (st : Store) (msg : InboundMessage)
    (api : ApiResponse)
    (h : (pyStripS msg.content).isEmpty = true ∨
         startsWithSlash (pyStripS msg.content) = true) :
    onMessage m st msg api = (st, []) := by
  unfold onMessage
  split
  · rfl
  · split
    · rfl
    · rcases h with h1 | h1 <;> simp [h1]

theorem C10_ignored_inputs_witness :
    onMessage 4 [(7, [⟨"user", "x"⟩])] ⟨false, true, 7, " /close_chat"⟩ .timeoutError =
      ([(7, [⟨"user", "x"⟩])], []) :=
  C10_ignored_inputs 4 [(7, [⟨"user", "x"⟩])] ⟨false, true, 7, " /close_chat"⟩
    .timeoutError (Or.inr (by decide))

theorem fullForDiscord_not_empty_of_answer (r c : Option String)
    (hc : optTruthy c = true) : (fullForDiscord r c).isEmpty = false := by
  apply bool_eq_false
  intro hEmpty
  have hmem : '💬' ∈ (fullForDiscord r c).data := by
    unfold fullForDiscord
    rw [if_neg (by simp [hc]), String.data_append]
    apply List.mem_append_right
    unfold answerBlock
    rw [if_pos hc, String.data_append]
    apply List.mem_append_left
    decide
  have hne : fullForDiscord r c = "" := (String.isEmpty_iff _).mp hEmpty
  rw [hne] at hmem
  simp at hmem

theorem successResult_snd_of_answer (r c : Option String) (hc : optTruthy c = true) :
    (successResult r c).2 = some (pyStripS (c.getD "")) := by
  unfold successResult
  rw [if_neg (by rw [fullForDiscord_not_empty_of_answer r c hc]; exact Bool.false_ne_true)]
  rw [if_pos hc]

theorem successResult_fst_of_answer (r c : Option String) (hc : optTruthy c = true) :
    (successResult r c).1 = some (pyStripS (fullForDiscord r c)) := by
  unfold successResult
  rw [if_neg (by rw [fullForDiscord_not_empty_of_answer r c hc]; exact Bool.false_ne_true)]

theorem successResult_fst_truthy_of_answer (r c : Option String)
    (hc : optTruthy c = true) : optTruthy (successResult r c).1 = true := by
  rw [successResult_fst_of_answer r c hc]
  apply (optTruthy_some_iff _).mpr
  apply pyStripS_ne_empty _ '💬'
  · unfold fullForDiscord
    rw [if_neg (by simp [hc]), String.data_append]
    apply List.mem_append_right
    unfold answerBlock
    rw [if_pos hc, String.data_append]
    apply List.mem_append_left
    decide
  · decide

theorem onMessage_eq_core (m k : Nat) (st : Store) (content : String)
    (api : ApiResponse)
    (hprompt : ((pyStripS content).isEmpty || startsWithSlash (pyStripS content)) = false) :
    onMessage m st ⟨false, true, k, content⟩ api =
      onMessageCore m (ensureStore st k) k (pyStripS content)
        (get_deepseek_response api) := by
  unfold onMessage
  rw [if_neg (fun h => Bool.noConfusion h), if_neg (fun h => Bool.noConfusion h)]
  rw [if_neg ?hcond]
  case hcond =>
    show ¬(((pyStripS content).isEmpty || startsWithSlash (pyStripS content)) = true)
    rw [hprompt]
    exact Bool.false_ne_true

theorem gdr_success_eq (r c : Option String) :
    get_deepseek_response (.success r c) = successResult r c := rfl

/-- Claim C4: a completion call that results in Failure does not mutate
history: for a conversation key `k` whose log is `L`, if the call's result
has no display text (every Failure kind), then after `on_message` the log
for `k` still equals `L`, and the user receives exactly one message, namely
the failure diagnostic wrapped in the error reply. -/
theorem C4_failure_keeps_history (m k : Nat) (st : Store) (L : List Turn)
    (content : String) (api : ApiResponse)
    (hL : storeLookup st k = some L)
    (hprompt : ((pyStripS content).isEmpty || startsWithSlash (pyStripS content)) = false)
    (hfail : (get_deepseek_response api).1 = none) :
    storeLookup (onMessage m st ⟨false, true, k, content⟩ api).1 k = some L ∧
    ∃ diag, (get_deepseek_response api).2 = some diag ∧ diag ≠ "" ∧
      (onMessage m st ⟨false, true, k, content⟩ api).2 = [errorReplyText diag] := by
  rcases gdr_result_total api with ⟨d, hd, _⟩ | ⟨_, diag, hdiag, hne⟩
  · rw [hfail] at hd
    cases hd
  · have hens : ensureStore st k = st := ensureStore_of_some st k L hL
    have hstep : onMessage m st ⟨false, true, k, content⟩ api =
        (st, [errorReplyText diag]) := by
      rw [onMessage_eq_core m k st content api hprompt]
      unfold onMessageCore
      rw [hens]
      rw [if_neg (by rw [hfail]; exact Bool.noConfusion)]
      rw [if_pos (by rw [hdiag]; exact (optTruthy_some_iff diag).mpr hne)]
      rw [hdiag]
      rfl
    rw [hstep]
    exact ⟨hL, diag, hdiag, hne, rfl⟩

theorem C4_failure_keeps_history_witness :
    storeLookup (onMessage 4 [(1, [⟨"user", "x"⟩])] ⟨false, true, 1, "hi"⟩
      .timeoutError).1 1 = some [⟨"user", "x"⟩] ∧
    ∃ diag, (get_deepseek_response .timeoutError).2 = some diag ∧ diag ≠ "" ∧
      (onMessage 4 [(1, [⟨"user", "x"⟩])] ⟨false, true, 1, "hi"⟩
        .timeoutError).2 = [errorReplyText diag] :=
  C4_failure_keeps_history 4 1 [(1, [⟨"user", "x"⟩])] [⟨"user", "x"⟩] "hi"
    .timeoutError (by decide) (by decide) (by decide)

/-- Claim C1: reasoning content is never persisted into conversation
history. For a successful completion with a final answer present, the
history component of the result is exactly the stripped final-answer text
and does not depend on the reasoning at all; when it is non-empty, the log
after `on_message` is the old log with exactly the user turn and an
assistant turn carrying that stripped final answer appended. When no final
answer is present but a display was produced (the reasoning-only case), the
history component is absent and the store is left with no turn appended. -/
theorem C1_no_reasoning_leak (m k : Nat) (content : String) (r c : Option String)
    (st : Store)
    (hprompt : ((pyStripS content).isEmpty || startsWithSlash (pyStripS content)) = false) :
    (optTruthy c = true →
      (get_deepseek_response (.success r c)).2 = some (pyStripS (c.getD "")) ∧
      (get_deepseek_response (.success r c)).2 =
        (get_deepseek_response (.success none c)).2) ∧
    (optTruthy c = true → pyStripS (c.getD "") ≠ "" →
      (onMessage m st ⟨false, true, k, content⟩ (.success r c)).1 =
        storeSet (ensureStore st k) k
          (appendRound m ((storeLookup (ensureStore st k) k).getD [])
            (pyStripS content) (pyStripS (c.getD "")))) ∧
    (optTruthy c = false →
      optTruthy (get_deepseek_response (.success r c)).1 = true →
      (get_deepseek_response (.success r c)).2 = none ∧
      (onMessage m st ⟨false, true, k, content⟩ (.success r c)).1 =
        ensureStore st k) := by
  refine ⟨?_, ?_, ?_⟩
  · intro hc
    rw [gdr_success_eq r c, gdr_success_eq none c]
    exact ⟨successResult_snd_of_answer r c hc,
      by rw [successResult_snd_of_answer r c hc, successResult_snd_of_answer none c hc]⟩
  · intro hc hne
    rw [onMessage_eq_core m k st content _ hprompt]
    unfold onMessageCore
    rw [gdr_success_eq r c]
    rw [if_pos (successResult_fst_truthy_of_answer r c hc)]
    rw [if_pos (by
      rw [successResult_snd_of_answer r c hc]
      exact (optTruthy_some_iff _).mpr hne)]
    rw [successResult_snd_of_answer r c hc]
    rfl
  · intro hc hdisp
    rw [gdr_success_eq r c] at hdisp ⊢
    have h2 : (successResult r c).2 = none := by
      unfold successResult
      split
      · next hfull =>
        exfalso
        have hfst : (successResult r c).1 = none := by
          unfold successResult
          rw [if_pos hfull]
        rw [hfst] at hdisp
        exact Bool.noConfusion hdisp
      · rw [if_neg (by rw [hc]; exact Bool.noConfusion)]
    refine ⟨h2, ?_⟩
    rw [onMessage_eq_core m k st content _ hprompt]
    unfold onMessageCore
    rw [gdr_success_eq r c]
    rw [if_pos hdisp]
    rw [if_neg (by rw [h2]; exact Bool.noConfusion)]

theorem C1_no_reasoning_leak_witness :
    (get_deepseek_response (.success (some "think") (some "42"))).2 =
      some (pyStripS "42") ∧
    (onMessage 4 [] ⟨false, true, 1, "hi"⟩ (.success (some "think") (some "42"))).1 =
      storeSet (ensureStore [] 1) 1
        (appendRound 4 ((storeLookup (ensureStore [] 1) 1).getD [])
          (pyStripS "hi") (pyStripS "42")) :=
  ⟨((C1_no_reasoning_leak 4 1 "hi" (some "think") (some "42") [] (by decide)).1
      (by decide)).1,
   (C1_no_reasoning_leak 4 1 "hi" (some "think") (some "42") [] (by decide)).2.1
      (by decide) (by decide)⟩

theorem appendRound_length_le (m : Nat) (hist : List Turn) (p a : String) :
    (appendRound m hist p a).length ≤ m := by
  unfold appendRound
  rw [dequeAppend_length]
  exact Nat.min_le_right _ _

theorem ensureStore_bound (m : Nat) (st : Store) (cid : Nat)
    (hb : ∀ k L, storeLookup st k = some L → L.length ≤ m) :
    ∀ k L, storeLookup (ensureStore st cid) k = some L → L.length ≤ m := by
  intro k L h
  by_cases hk : cid = k
  · subst hk
    rw [storeLookup_ensure_same] at h
    cases hv : storeLookup st cid with
    | none =>
      rw [hv] at h
      simp only [Option.getD_none, Option.some.injEq] at h
      subst h
      exact Nat.zero_le m
    | some v =>
      rw [hv] at h
      simp only [Option.getD_some, Option.some.injEq] at h
      subst h
      exact hb cid v hv
  · rw [storeLookup_ensure_other st cid k hk] at h
    exact hb k L h

theorem onMessage_bound (m : Nat) (st : Store) (msg : InboundMessage)
    (api : ApiResponse)
    (hb : ∀ k L, storeLookup st k = some L → L.length ≤ m) :
    ∀ k L2, storeLookup (onMessage m st msg api).1 k = some L2 → L2.length ≤ m := by
  intro k L2 hL2
  unfold onMessage at hL2
  split at hL2
  · exact hb k L2 hL2
  · split at hL2
    · exact hb k L2 hL2
    · split at hL2
      · exact hb k L2 hL2
      · have hb1 := ensureStore_bound m st msg.channelId hb
        unfold onMessageCore at hL2
        split at hL2
        · dsimp only at hL2
          split at hL2
          · by_cases hk : msg.channelId = k
            · subst hk
              rw [storeLookup_set_same] at hL2
              cases hL2
              exact appendRound_length_le m _ _ _
            · rw [storeLookup_set_other _ _ _ _ hk] at hL2
              exact hb1 k L2 hL2
          · exact hb1 k L2 hL2
        · split at hL2
          · exact hb1 k L2 hL2
          · exact hb1 k L2 hL2

/-- Claim C2: the per-channel log never exceeds `MAX_HISTORY` entries;
appends preserve insertion order and evict the oldest entries first (strict
FIFO); and in the concrete scenario `MAX_HISTORY = 4` with three successful
completions in sequence for one key, the final log holds exactly the turns
of completions 2 and 3. -/
theorem C2_history_bound :
    (∀ (m : Nat) (xs : List Turn) (t : Turn),
      (dequeAppend m xs t).length = min (xs.length + 1) m ∧
      (xs.length < m → dequeAppend m xs t = xs ++ [t]) ∧
      (0 < m → m ≤ xs.length →
        dequeAppend m xs t = xs.drop (xs.length + 1 - m) ++ [t])) ∧
    (∀ (m : Nat) (st : Store) (msg : InboundMessage) (api : ApiResponse),
      (∀ k L, storeLookup st k = some L → L.length ≤ m) →
      ∀ k L2, storeLookup (onMessage m st msg api).1 k = some L2 → L2.length ≤ m) ∧
    storeLookup
      (onMessage 4
        (onMessage 4
          (onMessage 4 [] ⟨false, true, 7, "p1"⟩ (.success none (some "a1"))).1
          ⟨false, true, 7, "p2"⟩ (.success none (some "a2"))).1
        ⟨false, true, 7, "p3"⟩ (.success none (some "a3"))).1 7 =
      some [⟨"user", "p2"⟩, ⟨"assistant", "a2"⟩, ⟨"user", "p3"⟩, ⟨"assistant", "a3"⟩] := by
  refine ⟨?_, onMessage_bound, ?_⟩
  · intro m xs t
    exact ⟨dequeAppend_length m xs t, dequeAppend_of_lt m xs t,
      fun h0 h => dequeAppend_of_ge m xs t h0 h⟩
  · decide

theorem C2_history_bound_witness :
    dequeAppend 2 [⟨"user", "p1"⟩, ⟨"assistant", "a1"⟩] ⟨"user", "p2"⟩ =
      ([⟨"user", "p1"⟩, ⟨"assistant", "a1"⟩] : List Turn).drop 1 ++ [⟨"user", "p2"⟩] :=
  (C2_history_bound.1 2 [⟨"user", "p1"⟩, ⟨"assistant", "a1"⟩] ⟨"user", "p2"⟩).2.2
    (by decide) (by decide)

theorem replicate_get (n : Nat) (a : Char) (j : Nat)
    (hj : j < (List.replicate n a).length) : (List.replicate n a).get ⟨j, hj⟩ = a := by
  rw [List.get_eq_getElem, List.getElem_replicate]

theorem pyRfind_replicate_none (n : Nat) (a c : Char) (hne : a ≠ c) (u v : Nat) :
    pyRfind (List.replicate n a) c u v = none :=
  pyRfind_eq_none_of _ _ _ _ (fun j hj _ _ => by rw [replicate_get]; exact hne)

theorem countFences_of_no_bt : ∀ l : List Char, (∀ x ∈ l, x ≠ btChar) → countFences l = 0
  | [], _ => rfl
  | [_], _ => rfl
  | [_, _], _ => rfl
  | a :: b :: c :: rest, h => by
    rw [show countFences (a :: b :: c :: rest) =
        if a = btChar ∧ b = btChar ∧ c = btChar then countFences rest + 1
        else countFences (b :: c :: rest) from rfl]
    rw [if_neg (fun hc => h a (by simp) hc.1)]
    exact countFences_of_no_bt (b :: c :: rest) (fun x hx => h x (List.mem_cons_of_mem a hx))

theorem pySlice_mem (s : List Char) (a b : Nat) (x : Char) (hx : x ∈ pySlice s a b) :
    x ∈ s := by
  unfold pySlice at hx
  exact List.Sublist.mem (List.Sublist.mem hx (List.drop_sublist _ _)) (List.take_sublist _ _)

theorem computeSplitIndex_hardcut (s : List Char) (pos : Nat)
    (hnl : pyRfind s nlChar pos (min (pos + 1990) s.length) = none)
    (hsp : pyRfind s spChar pos (min (pos + 1990) s.length) = none)
    (hcf : countFences (pySlice s pos (min (pos + 1990) s.length)) = 0) :
    computeSplitIndex s pos = min (pos + 1990) s.length := by
  have hbase : computeBaseSplit s pos = min (pos + 1990) s.length := by
    unfold computeBaseSplit newlineSplit spaceSplit
    rw [hnl, hsp]
  unfold computeSplitIndex fenceGuard
  rw [hbase]
  rw [if_neg (fun hcond => hcond.2 (by rw [hcf]))]

/-- Claim C9: on an input of 4500 identical non-space non-newline characters
with LIMIT = 2000, the splitter performs hard cuts at positions 1990 and
3980, producing exactly three chunks: two of length 1990 and a third with
the 520-character remainder. -/
theorem C9_hard_cut_scenario :
    splitMessage (List.replicate 4500 'a') =
      [List.replicate 1990 'a', List.replicate 1990 'a', List.replicate 520 'a'] ∧
    splitSteps (List.replicate 4500 'a') 0 = [(0, 1990), (1990, 3980), (3980, 4500)] := by
  have hlen : (List.replicate 4500 'a').length = 4500 := List.length_replicate 4500 'a'
  have hnb : ∀ x ∈ List.replicate 4500 'a', x ≠ btChar := by
    intro x hx
    rw [List.eq_of_mem_replicate hx]
    decide
  have hcsi : ∀ pos, computeSplitIndex (List.replicate 4500 'a') pos =
      min (pos + 1990) 4500 := by
    intro pos
    have h1 := computeSplitIndex_hardcut (List.replicate 4500 'a') pos
      (pyRfind_replicate_none 4500 'a' nlChar (by decide) _ _)
      (pyRfind_replicate_none 4500 'a' spChar (by decide) _ _)
      (countFences_of_no_bt _ (fun x hx => hnb x (pySlice_mem _ _ _ x hx)))
    rw [hlen] at h1
    exact h1
  have hskip : ∀ p, p < 4500 → skipWs (List.replicate 4500 'a') p = p := by
    intro p hp
    apply skipWs_of_nonspace _ _ (by rw [hlen]; exact hp)
    rw [replicate_get]
    decide
  constructor
  · rw [splitMessage, splitLoop_of_lt _ _ (by rw [hlen]; omega), hcsi 0,
      show min (0 + 1990) 4500 = 1990 from by omega, hskip 1990 (by omega),
      splitLoop_of_lt _ _ (by rw [hlen]; omega), hcsi 1990,
      show min (1990 + 1990) 4500 = 3980 from by omega, hskip 3980 (by omega),
      splitLoop_of_lt _ _ (by rw [hlen]; omega), hcsi 3980,
      show min (3980 + 1990) 4500 = 4500 from by omega,
      skipWs_of_ge _ _ (by rw [hlen]), splitLoop_of_ge _ _ (by rw [hlen])]
    unfold pySlice
    rw [List.take_replicate, List.drop_replicate, List.take_replicate,
      List.drop_replicate, List.take_replicate, List.drop_replicate]
    norm_num
  · rw [splitSteps_of_lt _ _ (by rw [hlen]; omega), hcsi 0,
      show min (0 + 1990) 4500 = 1990 from by omega, hskip 1990 (by omega),
      splitSteps_of_lt _ _ (by rw [hlen]; omega), hcsi 1990,
      show min (1990 + 1990) 4500 = 3980 from by omega, hskip 3980 (by omega),
      splitSteps_of_lt _ _ (by rw [hlen]; omega), hcsi 3980,
      show min (3980 + 1990) 4500 = 4500 from by omega,
      skipWs_of_ge _ _ (by rw [hlen]), splitSteps_of_ge _ _ (by rw [hlen])]

/-- The input family of the fence-parity property: `n` triple-backtick fence
markers separated by single (safe) newlines. -/
def fenceStr : Nat → List Char
  | 0 => []
  | 1 => fenceMarker
  | n + 2 => fenceMarker ++ nlChar :: fenceStr (n + 1)

theorem fenceStr_length : ∀ n : Nat, (fenceStr n).length = 4 * n - 1
  | 0 => rfl
  | 1 => rfl
  | n + 2 => by
    rw [show fenceStr (n + 2) = fenceMarker ++ nlChar :: fenceStr (n + 1) from rfl,
      List.length_append, List.length_cons, fenceStr_length (n + 1)]
    show 3 + (4 * (n + 1) - 1 + 1) = 4 * (n + 2) - 1
    omega

theorem fenceStr_get : ∀ (n i : Nat) (h : i < (fenceStr n).length),
    (fenceStr n).get ⟨i, h⟩ = if i % 4 = 3 then nlChar else btChar
  | 0, i, h => by
    rw [fenceStr_length] at h
    omega
  | 1, i, h => by
    rw [fenceStr_length] at h
    rw [List.get_eq_getElem]
    interval_cases i <;> rfl
  | n + 2, i, h => by
    rw [List.get_eq_getElem]
    show (fenceMarker ++ nlChar :: fenceStr (n + 1))[i] = _
    by_cases h4 : i < 4
    · have h3 := h
      rw [fenceStr_length] at h3
      interval_cases i
      · rw [List.getElem_append_left (by decide)]
        rfl
      · rw [List.getElem_append_left (by decide)]
        rfl
      · rw [List.getElem_append_left (by decide)]
        rfl
      · rw [List.getElem_append_right (by decide)]
        rfl
    · have hlen2 : i - 4 < (fenceStr (n + 1)).length := by
        rw [fenceStr_length]
        have h3 := h
        rw [fenceStr_length] at h3
        omega
      rw [List.getElem_append_right (by show (3 : Nat) ≤ i; omega)]
      rw [List.getElem_eq_iff]
      rw [show i - fenceMarker.length = (i - 4) + 1 from by show i - 3 = (i - 4) + 1; omega]
      rw [List.getElem?_cons_succ, List.getElem?_eq_getElem hlen2]
      have ih := fenceStr_get (n + 1) (i - 4) hlen2
      rw [List.get_eq_getElem] at ih
      rw [ih]
      have hmod : (i - 4) % 4 = i % 4 := by omega
      rw [hmod]

theorem fenceStr_get_nl (n i : Nat) (h : i < (fenceStr n).length) (h4 : i % 4 = 3) :
    (fenceStr n).get ⟨i, h⟩ = nlChar := by
  rw [fenceStr_get n i h, if_pos h4]

theorem fenceStr_get_bt (n i : Nat) (h : i < (fenceStr n).length) (h4 : i % 4 ≠ 3) :
    (fenceStr n).get ⟨i, h⟩ = btChar := by
  rw [fenceStr_get n i h, if_neg h4]

theorem fenceStr_rfind_sp_none (n u v : Nat) :
    pyRfind (fenceStr n) spChar u v = none := by
  apply pyRfind_eq_none_of
  intro j hj _ _
  rw [fenceStr_get n j hj]
  split <;> decide

theorem fenceStr_rfind_nl_some (n u v i : Nat) (h1 : u ≤ i) (h2 : i < v)
    (h3 : i < 4 * n - 1) (h4 : i % 4 = 3)
    (hmax : ∀ j, i < j → j < v → j < 4 * n - 1 → j % 4 ≠ 3) :
    pyRfind (fenceStr n) nlChar u v = some i := by
  have h3l : i < (fenceStr n).length := by rw [fenceStr_length]; exact h3
  apply pyRfind_eq_some_of (fenceStr n) nlChar u v i h1 h2 h3l
    (fenceStr_get_nl n i h3l h4)
  intro j hj hij hjv
  have hjl : j < 4 * n - 1 := by rw [fenceStr_length] at hj; exact hj
  rw [fenceStr_get_bt n j hj (hmax j hij hjv hjl)]
  decide

theorem fenceStr_rfind_nl_none (n u v : Nat)
    (hall : ∀ j, u ≤ j → j < v → j < 4 * n - 1 → j % 4 ≠ 3) :
    pyRfind (fenceStr n) nlChar u v = none := by
  apply pyRfind_eq_none_of
  intro j hj h1 h2
  have hjl : j < 4 * n - 1 := by rw [fenceStr_length] at hj; exact hj
  rw [fenceStr_get_bt n j hj (hall j h1 h2 hjl)]
  decide

theorem countFences_cons_ne (x : Char) (t : List Char) (hx : x ≠ btChar) :
    countFences (x :: t) = countFences t := by
  match t with
  | [] => rfl
  | [_] => rfl
  | b :: c :: rest =>
    rw [show countFences (x :: b :: c :: rest) =
        if x = btChar ∧ b = btChar ∧ c = btChar then countFences rest + 1
        else countFences (b :: c :: rest) from rfl]
    rw [if_neg (fun hc => hx hc.1)]

theorem countFences_marker_nl (t : List Char) :
    countFences (btChar :: btChar :: btChar :: nlChar :: t) = countFences t + 1 := by
  rw [show countFences (btChar :: btChar :: btChar :: nlChar :: t) =
      if btChar = btChar ∧ btChar = btChar ∧ btChar = btChar then
        countFences (nlChar :: t) + 1
      else countFences (btChar :: btChar :: nlChar :: t) from rfl]
  rw [if_pos ⟨rfl, rfl, rfl⟩, countFences_cons_ne nlChar t (by decide)]

theorem countFences_take_fenceStr : ∀ (n p : Nat),
    countFences ((fenceStr n).take p) = min n ((p + 1) / 4)
  | 0, p => by
    rw [show fenceStr 0 = [] from rfl, List.take_nil]
    show 0 = min 0 ((p + 1) / 4)
    omega
  | 1, p => by
    match p with
    | 0 => show 0 = min 1 (1 / 4); decide
    | 1 => show 0 = min 1 (2 / 4); decide
    | 2 => show 0 = min 1 (3 / 4); decide
    | q + 3 =>
      rw [show fenceStr 1 = fenceMarker from rfl,
        List.take_of_length_le (by show (3 : Nat) ≤ q + 3; omega)]
      show 1 = min 1 ((q + 4) / 4)
      omega
  | n + 2, p => by
    match p with
    | 0 => show 0 = min (n + 2) (1 / 4); omega
    | 1 =>
      rw [show (fenceStr (n + 2)).take 1 = [btChar] from rfl]
      show 0 = min (n + 2) (2 / 4)
      omega
    | 2 =>
      rw [show (fenceStr (n + 2)).take 2 = [btChar, btChar] from rfl]
      show 0 = min (n + 2) (3 / 4)
      omega
    | 3 =>
      rw [show (fenceStr (n + 2)).take 3 = [btChar, btChar, btChar] from rfl]
      show 1 = min (n + 2) (4 / 4)
      omega
    | q + 4 =>
      rw [show (fenceStr (n + 2)).take (q + 4) =
          btChar :: btChar :: btChar :: nlChar :: (fenceStr (n + 1)).take q from rfl]
      rw [countFences_marker_nl, countFences_take_fenceStr (n + 1) q]
      omega

theorem fenceStr_drop4 : ∀ n : Nat, 1 ≤ n → (fenceStr n).drop 4 = fenceStr (n - 1)
  | 1, _ => rfl
  | n + 2, _ => rfl

theorem fenceStr_drop : ∀ (n m : Nat), m ≤ n → (fenceStr n).drop (4 * m) = fenceStr (n - m)
  | n, 0, _ => by rw [Nat.mul_zero, List.drop_zero, Nat.sub_zero]
  | n, m + 1, h => by
    rw [show 4 * (m + 1) = 4 * m + 4 from by omega, ← List.drop_drop,
      fenceStr_drop n m (by omega), fenceStr_drop4 (n - m) (by omega)]
    rw [show n - m - 1 = n - (m + 1) from by omega]

theorem containsFence_of_count_pos : ∀ l : List Char,
    0 < countFences l → containsFence l = true
  | [], h => absurd h (by decide)
  | [x], h => by
    rw [show countFences [x] = 0 from rfl] at h
    omega
  | [x, y], h => by
    rw [show countFences [x, y] = 0 from rfl] at h
    omega
  | a :: b :: c :: rest, h => by
    unfold containsFence
    apply decide_eq_true
    by_cases hc : a = btChar ∧ b = btChar ∧ c = btChar
    · obtain ⟨h1, h2, h3⟩ := hc
      subst h1; subst h2; subst h3
      exact ⟨[], rest, rfl⟩
    · have h2 : 0 < countFences (b :: c :: rest) := by
        rw [show countFences (a :: b :: c :: rest) =
            if a = btChar ∧ b = btChar ∧ c = btChar then countFences rest + 1
            else countFences (b :: c :: rest) from rfl, if_neg hc] at h
        exact h
      have h3 := containsFence_of_count_pos (b :: c :: rest) h2
      unfold containsFence at h3
      exact List.infix_cons (of_decide_eq_true h3)

theorem skipWs_fenceStr (n b : Nat) (hb : b < 4 * n - 1) (h4 : b % 4 = 3) :
    skipWs (fenceStr n) b = b + 1 := by
  have hlen : (fenceStr n).length = 4 * n - 1 := fenceStr_length n
  have hbl : b < (fenceStr n).length := by omega
  have hb1 : b + 1 < 4 * n - 1 := by omega
  have hb1l : b + 1 < (fenceStr n).length := by omega
  rw [skipWs_of_space (fenceStr n) b hbl
    (by rw [fenceStr_get_nl n b hbl h4]; decide)]
  exact skipWs_of_nonspace (fenceStr n) (b + 1) hb1l
    (by rw [fenceStr_get_bt n (b + 1) hb1l (by omega)]; decide)

theorem countFences_slice_fenceStr (n m b : Nat) (hm : m ≤ n) :
    countFences (pySlice (fenceStr n) (4 * m) b) =
      min (n - m) ((b - 4 * m + 1) / 4) := by
  unfold pySlice
  rw [List.drop_take, fenceStr_drop n m hm, countFences_take_fenceStr]

theorem fenceStr_nl_mod (n j : Nat) (hj : j < (fenceStr n).length)
    (h : (fenceStr n).get ⟨j, hj⟩ = nlChar) : j % 4 = 3 := by
  by_contra h4
  rw [fenceStr_get_bt n j hj h4] at h
  exact absurd h (by decide)

theorem csi_fenceStr_far (n m : Nat) (h : m + 498 ≤ n) :
    computeSplitIndex (fenceStr n) (4 * m) = 4 * m + 1983 := by
  have hlen := fenceStr_length n
  have hmin : min (4 * m + 1990) (fenceStr n).length = 4 * m + 1990 := by
    rw [hlen]; omega
  have hnl : pyRfind (fenceStr n) nlChar (4 * m) (4 * m + 1990) =
      some (4 * m + 1987) :=
    fenceStr_rfind_nl_some n _ _ _ (by omega) (by omega) (by omega) (by omega)
      (fun j h1 h2 _ => by omega)
  have hbase : computeBaseSplit (fenceStr n) (4 * m) = 4 * m + 1987 := by
    unfold computeBaseSplit newlineSplit
    rw [hmin, hnl]
    dsimp only
    rw [if_pos (by omega)]
  have hcount : countFences (pySlice (fenceStr n) (4 * m) (4 * m + 1987)) = 497 := by
    rw [countFences_slice_fenceStr n m _ (by omega)]
    omega
  have hfall : pyRfind (fenceStr n) nlChar (4 * m) (4 * m + 1987 - 1) =
      some (4 * m + 1983) :=
    fenceStr_rfind_nl_some n _ _ _ (by omega) (by omega) (by omega) (by omega)
      (fun j h1 h2 _ => by omega)
  unfold computeSplitIndex fenceGuard
  rw [hbase,
    if_pos ⟨containsFence_of_count_pos _ (by rw [hcount]; omega), by rw [hcount]; decide⟩]
  unfold fenceFallback
  rw [hfall]
  dsimp only
  rw [if_pos (by omega)]

theorem csi_fenceStr_last (n m : Nat) (h : m + 1 = n) :
    computeSplitIndex (fenceStr n) (4 * m) = 4 * n - 1 := by
  have hlen := fenceStr_length n
  have hmin : min (4 * m + 1990) (fenceStr n).length = 4 * n - 1 := by
    rw [hlen]; omega
  have hnl : pyRfind (fenceStr n) nlChar (4 * m) (4 * n - 1) = none :=
    fenceStr_rfind_nl_none n _ _ (fun j h1 h2 _ => by omega)
  have hsp := fenceStr_rfind_sp_none n (4 * m) (4 * n - 1)
  have hbase : computeBaseSplit (fenceStr n) (4 * m) = 4 * n - 1 := by
    unfold computeBaseSplit newlineSplit
    rw [hmin, hnl]
    dsimp only
    unfold spaceSplit
    rw [hsp]
  have hcount : countFences (pySlice (fenceStr n) (4 * m) (4 * n - 1)) = 1 := by
    rw [countFences_slice_fenceStr n m _ (by omega)]
    omega
  have hfall : pyRfind (fenceStr n) nlChar (4 * m) (4 * n - 1 - 1) = none :=
    fenceStr_rfind_nl_none n _ _ (fun j h1 h2 _ => by omega)
  unfold computeSplitIndex fenceGuard
  rw [hbase,
    if_pos ⟨containsFence_of_count_pos _ (by rw [hcount]; omega), by rw [hcount]; decide⟩]
  unfold fenceFallback
  rw [hfall]

theorem csi_fenceStr_even (n m : Nat) (h2 : m + 2 ≤ n) (h497 : n ≤ m + 497)
    (hodd : (n - m) % 2 = 1) :
    computeSplitIndex (fenceStr n) (4 * m) = 4 * n - 5 := by
  have hlen := fenceStr_length n
  have hmin : min (4 * m + 1990) (fenceStr n).length = 4 * n - 1 := by
    rw [hlen]; omega
  have hnl : pyRfind (fenceStr n) nlChar (4 * m) (4 * n - 1) = some (4 * n - 5) :=
    fenceStr_rfind_nl_some n _ _ _ (by omega) (by omega) (by omega) (by omega)
      (fun j h1 h2 _ => by omega)
  have hbase : computeBaseSplit (fenceStr n) (4 * m) = 4 * n - 5 := by
    unfold computeBaseSplit newlineSplit
    rw [hmin, hnl]
    dsimp only
    rw [if_pos (by omega)]
  have hcount : countFences (pySlice (fenceStr n) (4 * m) (4 * n - 5)) = n - m - 1 := by
    rw [countFences_slice_fenceStr n m _ (by omega)]
    omega
  unfold computeSplitIndex fenceGuard
  rw [hbase, if_neg (fun hc => hc.2 (by rw [hcount]; omega))]

theorem csi_fenceStr_near (n m : Nat) (h : m + 2 = n) :
    computeSplitIndex (fenceStr n) (4 * m) = 4 * n - 5 := by
  have hlen := fenceStr_length n
  have hmin : min (4 * m + 1990) (fenceStr n).length = 4 * n - 1 := by
    rw [hlen]; omega
  have hnl : pyRfind (fenceStr n) nlChar (4 * m) (4 * n - 1) = some (4 * n - 5) :=
    fenceStr_rfind_nl_some n _ _ _ (by omega) (by omega) (by omega) (by omega)
      (fun j h1 h2 _ => by omega)
  have hbase : computeBaseSplit (fenceStr n) (4 * m) = 4 * n - 5 := by
    unfold computeBaseSplit newlineSplit
    rw [hmin, hnl]
    dsimp only
    rw [if_pos (by omega)]
  have hcount : countFences (pySlice (fenceStr n) (4 * m) (4 * n - 5)) = 1 := by
    rw [countFences_slice_fenceStr n m _ (by omega)]
    omega
  have hfall : pyRfind (fenceStr n) nlChar (4 * m) (4 * n - 5 - 1) = none :=
    fenceStr_rfind_nl_none n _ _ (fun j h1 h2 _ => by omega)
  unfold computeSplitIndex fenceGuard
  rw [hbase,
    if_pos ⟨containsFence_of_count_pos _ (by rw [hcount]; omega), by rw [hcount]; decide⟩]
  unfold fenceFallback
  rw [hfall]

theorem csi_fenceStr_evenfar (n m : Nat) (h4 : m + 4 ≤ n) (h497 : n ≤ m + 497)
    (heven : (n - m) % 2 = 0) :
    computeSplitIndex (fenceStr n) (4 * m) = 4 * n - 9 := by
  have hlen := fenceStr_length n
  have hmin : min (4 * m + 1990) (fenceStr n).length = 4 * n - 1 := by
    rw [hlen]; omega
  have hnl : pyRfind (fenceStr n) nlChar (4 * m) (4 * n - 1) = some (4 * n - 5) :=
    fenceStr_rfind_nl_some n _ _ _ (by omega) (by omega) (by omega) (by omega)
      (fun j h1 h2 _ => by omega)
  have hbase : computeBaseSplit (fenceStr n) (4 * m) = 4 * n - 5 := by
    unfold computeBaseSplit newlineSplit
    rw [hmin, hnl]
    dsimp only
    rw [if_pos (by omega)]
  have hcount : countFences (pySlice (fenceStr n) (4 * m) (4 * n - 5)) = n - m - 1 := by
    rw [countFences_slice_fenceStr n m _ (by omega)]
    omega
  have hfall : pyRfind (fenceStr n) nlChar (4 * m) (4 * n - 5 - 1) = some (4 * n - 9) :=
    fenceStr_rfind_nl_some n _ _ _ (by omega) (by omega) (by omega) (by omega)
      (fun j h1 h2 _ => by omega)
  unfold computeSplitIndex fenceGuard
  rw [hbase,
    if_pos ⟨containsFence_of_count_pos _ (by rw [hcount]; omega), by rw [hcount]; omega⟩]
  unfold fenceFallback
  rw [hfall]
  dsimp only
  rw [if_pos (by omega)]

/-- "Boundary `pr.2` is compatible with fence parity": whenever a valid
newline existed for the guard to fall back to (a newline strictly between
the cursor and the position just before the split point), the prefix of the
input up to the boundary contains an even number of fence markers, i.e. the
boundary does not fall strictly inside an open fence. -/
def goodStep (s : List Char) (pr : Nat × Nat) : Prop :=
  (∃ j, pr.1 < j ∧ j + 1 < pr.2 ∧
    ∃ hj : j < s.length, s.get ⟨j, hj⟩ = nlChar) →
  countFences (s.take pr.2) % 2 = 0

theorem fence_steps_good (n : Nat) : ∀ (fuel m : Nat), n - m ≤ fuel → m < n →
    (m % 2 = 0 ∨ m + 1 = n) →
    ∀ pr ∈ splitSteps (fenceStr n) (4 * m), goodStep (fenceStr n) pr := by
  intro fuel
  induction fuel with
  | zero =>
    intro m hf hm _ pr hpr
    omega
  | succ f ih =>
    intro m hf hm hinv pr hpr
    have hlen := fenceStr_length n
    have hpos : 4 * m < (fenceStr n).length := by omega
    rw [splitSteps_of_lt _ _ hpos] at hpr
    by_cases hA : m + 498 ≤ n
    · have hmeven : m % 2 = 0 := by
        rcases hinv with h | h
        · exact h
        · omega
      rw [csi_fenceStr_far n m hA] at hpr
      rw [skipWs_fenceStr n (4 * m + 1983) (by omega) (by omega)] at hpr
      rw [show 4 * m + 1983 + 1 = 4 * (m + 496) from by omega] at hpr
      rcases List.mem_cons.mp hpr with hhd | htl
      · subst hhd
        intro _
        show countFences ((fenceStr n).take (4 * m + 1983)) % 2 = 0
        rw [countFences_take_fenceStr]
        omega
      · exact ih (m + 496) (by omega) (by omega) (Or.inl (by omega)) pr htl
    · by_cases hB2 : m + 1 = n
      · rw [csi_fenceStr_last n m hB2] at hpr
        rw [skipWs_of_ge _ _ (by omega)] at hpr
        rw [splitSteps_of_ge _ _ (by omega)] at hpr
        rcases List.mem_cons.mp hpr with hhd | htl
        · subst hhd
          intro hex
          exfalso
          obtain ⟨j, hj1, hj2, hjl, hjnl⟩ := hex
          have hj4 := fenceStr_nl_mod n j hjl hjnl
          omega
        · simp at htl
      · by_cases hodd : (n - m) % 2 = 1
        · have hmeven : m % 2 = 0 := by
            rcases hinv with h | h
            · exact h
            · exact absurd h hB2
          rw [csi_fenceStr_even n m (by omega) (by omega) hodd] at hpr
          rw [skipWs_fenceStr n (4 * n - 5) (by omega) (by omega)] at hpr
          rw [show 4 * n - 5 + 1 = 4 * (n - 1) from by omega] at hpr
          rcases List.mem_cons.mp hpr with hhd | htl
          · subst hhd
            intro _
            show countFences ((fenceStr n).take (4 * n - 5)) % 2 = 0
            rw [countFences_take_fenceStr]
            omega
          · exact ih (n - 1) (by omega) (by omega) (Or.inr (by omega)) pr htl
        · by_cases hnear : m + 2 = n
          · rw [csi_fenceStr_near n m hnear] at hpr
            rw [skipWs_fenceStr n (4 * n - 5) (by omega) (by omega)] at hpr
            rw [show 4 * n - 5 + 1 = 4 * (n - 1) from by omega] at hpr
            rcases List.mem_cons.mp hpr with hhd | htl
            · subst hhd
              intro hex
              exfalso
              obtain ⟨j, hj1, hj2, hjl, hjnl⟩ := hex
              have hj4 := fenceStr_nl_mod n j hjl hjnl
              omega
            · exact ih (n - 1) (by omega) (by omega) (Or.inr (by omega)) pr htl
          · have hmeven : m % 2 = 0 := by
              rcases hinv with h | h
              · exact h
              · exact absurd h hB2
            rw [csi_fenceStr_evenfar n m (by omega) (by omega) (by omega)] at hpr
            rw [skipWs_fenceStr n (4 * n - 9) (by omega) (by omega)] at hpr
            rw [show 4 * n - 9 + 1 = 4 * (n - 2) from by omega] at hpr
            rcases List.mem_cons.mp hpr with hhd | htl
            · subst hhd
              intro _
              show countFences ((fenceStr n).take (4 * n - 9)) % 2 = 0
              rw [countFences_take_fenceStr]
              omega
            · exact ih (n - 2) (by omega) (by omega) (Or.inl (by omega)) pr htl

/-- Claim C6: fence-parity best effort. For an input consisting of `n`
triple-backtick fence markers separated by single newlines, every boundary
`pr.2` chosen by the splitting loop (with cursor `pr.1`) satisfies: if a
valid newline existed for the guard to fall back to (strictly between the
cursor and the position just before the boundary), then the prefix up to the
boundary closes an even number of fence markers — the boundary does not fall
strictly inside a fence span. -/
theorem C6_fence_parity (n : Nat) :
    ∀ pr ∈ splitSteps (fenceStr n) 0,
      (∃ j, pr.1 < j ∧ j + 1 < pr.2 ∧
        ∃ hj : j < (fenceStr n).length, (fenceStr n).get ⟨j, hj⟩ = nlChar) →
      countFences ((fenceStr n).take pr.2) % 2 = 0 := by
  intro pr hpr hex
  match n, hpr with
  | 0, hpr =>
    rw [splitSteps_of_ge _ _ (by rw [fenceStr_length])] at hpr
    simp at hpr
  | Nat.succ k, hpr =>
    have h0 : (4 * 0 : Nat) = 0 := rfl
    have hg := fence_steps_good (k + 1) (k + 1) 0 (by omega) (by omega)
      (Or.inl rfl) pr (by rw [h0]; exact hpr)
    exact hg hex

theorem C6_fence_parity_witness : countFences ((fenceStr 6).take 15) % 2 = 0 := by
  have hmem : ((0, 15) : Nat × Nat) ∈ splitSteps (fenceStr 6) 0 := by
    rw [splitSteps_of_lt _ _ (by rw [fenceStr_length]; omega),
      show computeSplitIndex (fenceStr 6) 0 = 15 from by decide]
    exact List.mem_cons_self _ _
  exact C6_fence_parity 6 (0, 15) hmem ⟨3, by decide, by decide, by decide, by decide⟩
